import Mathlib

/-!
Verification of the timing-derivation and presentation core of the `cetar`
HTTP timing analyzer.  Text is modelled as lists of Unicode code points
(`Str := List Nat`), byte buffers as `List Nat` of values below 256, and
`std::time::Duration` as a count of nanoseconds (`Nat`).  Each definition
below is a shallow embedding of the corresponding Rust item from
`src/network.rs` and `src/output.rs`.
-/

namespace Cetar

/-- Text: a list of Unicode code points. -/
abbrev Str := List Nat

/-- Convert a Lean string literal into the code-point model. -/
def str2cp (s : String) : Str := s.data.map Char.toNat

/-- ASCII whitespace recognizer, modelling the characters `str::trim`
removes in the header data handled by this program. -/
def isWs (c : Nat) : Bool := c = 32 || c = 9 || c = 10 || c = 13

/-- Embedding of `str::trim`: drop whitespace from both ends. -/
def trim (s : Str) : Str :=
  ((s.dropWhile isWs).reverse.dropWhile isWs).reverse

/-- ASCII uppercase of a code point, modelling `str::to_uppercase` on the
header data handled by this program. -/
def toUpperCp (c : Nat) : Nat := if 97 ≤ c ∧ c ≤ 122 then c - 32 else c

/-- ASCII lowercase of a code point, modelling `char::to_lowercase`. -/
def toLowerCp (c : Nat) : Nat := if 65 ≤ c ∧ c ≤ 90 then c + 32 else c

/-- Embedding of `str::split_once(c)`: split at the first occurrence of
code point `c`, returning the parts before and after it. -/
def splitOnceChar (c : Nat) : Str → Option (Str × Str)
  | [] => none
  | x :: xs =>
    if x = c then some ([], xs)
    else (splitOnceChar c xs).map (fun p => (x :: p.1, p.2))

/-- Embedding of `str::split(c)`: split at every occurrence of code point
`c`, keeping empty pieces (as Rust's `split` does). -/
def splitChar (c : Nat) : Str → List Str
  | [] => [[]]
  | x :: xs =>
    if x = c then [] :: splitChar c xs
    else
      match splitChar c xs with
      | [] => [[x]]
      | h :: t => (x :: h) :: t

/-- Decimal digits of a natural number, most significant first
(the rendering of `{}` for an unsigned integer). -/
def natDigits (n : Nat) : Str :=
  if h : n < 10 then [48 + n]
  else natDigits (n / 10) ++ [48 + n % 10]
  decreasing_by exact Nat.div_lt_self (by omega) (by omega)

/-- Rendering of `{}` for an `i32` value. -/
def intToStr (i : Int) : Str :=
  if i < 0 then 45 :: natDigits i.natAbs else natDigits i.toNat

/-- Value of a digit string, or `none` if some character is not a
decimal digit. -/
def digitsVal : Str → Option Nat
  | [] => some 0
  | c :: cs =>
    if 48 ≤ c ∧ c ≤ 57 then
      (digitsVal cs).map (fun v => v + (c - 48) * 10 ^ cs.length)
    else none

/-- Embedding of `str::parse::<i32>()`: optional sign, at least one digit,
all digits, and the value must fit in a 32-bit signed integer. -/
def parseI32 (s : Str) : Option Int :=
  let (neg, ds) :=
    match s with
    | 43 :: rest => (false, rest)
    | 45 :: rest => (true, rest)
    | _ => (false, s)
  if ds = [] then none
  else
    match digitsVal ds with
    | none => none
    | some n =>
      let v : Int := if neg then -(n : Int) else (n : Int)
      if -(2 ^ 31) ≤ v ∧ v < 2 ^ 31 then some v else none

/-- A UTF-8 continuation byte. -/
def isCont (b : Nat) : Bool := 128 ≤ b && b < 192

/-- Whether a code point is a Unicode scalar value (encodable in UTF-8). -/
def isScalar (c : Nat) : Bool := c < 1114112 && !(55296 ≤ c && c < 57344)

/-- UTF-8 encoding of one scalar value. -/
def utf8EncodeCp (c : Nat) : List Nat :=
  if c < 128 then [c]
  else if c < 2048 then [192 + c / 64, 128 + c % 64]
  else if c < 65536 then [224 + c / 4096, 128 + c / 64 % 64, 128 + c % 64]
  else [240 + c / 262144, 128 + c / 4096 % 64, 128 + c / 64 % 64, 128 + c % 64]

/-- UTF-8 encoding of a sequence of scalar values. -/
def utf8Encode (cs : List Nat) : List Nat := (cs.map utf8EncodeCp).flatten

/-- Validity of the first continuation byte of a three-byte sequence,
depending on the lead byte (excludes overlong forms and surrogates). -/
def valid3b1 (b0 b1 : Nat) : Bool :=
  if b0 = 224 then 160 ≤ b1 && b1 < 192
  else if b0 = 237 then 128 ≤ b1 && b1 < 160
  else isCont b1

/-- Validity of the first continuation byte of a four-byte sequence,
depending on the lead byte (excludes overlong forms and values above
U+10FFFF). -/
def valid4b1 (b0 b1 : Nat) : Bool :=
  if b0 = 240 then 144 ≤ b1 && b1 < 192
  else if b0 = 244 then 128 ≤ b1 && b1 < 144
  else isCont b1

/-- Fuel-driven strict UTF-8 decoding; the fuel only bounds the
recursion depth (one unit per decoded scalar) and `utf8Decode?` always
supplies enough. -/
def decodeCore : Nat → List Nat → Option (List Nat)
  | _, [] => some []
  | 0, _ :: _ => none
  | fuel + 1, b0 :: rest =>
    if b0 < 128 then (decodeCore fuel rest).map (b0 :: ·)
    else if b0 < 194 then none
    else if b0 < 224 then
      match rest with
      | [] => none
      | b1 :: rest2 =>
        if isCont b1 then
          (decodeCore fuel rest2).map (((b0 - 192) * 64 + (b1 - 128)) :: ·)
        else none
    else if b0 < 240 then
      match rest with
      | b1 :: b2 :: rest3 =>
        if valid3b1 b0 b1 && isCont b2 then
          (decodeCore fuel rest3).map
            (((b0 - 224) * 4096 + (b1 - 128) * 64 + (b2 - 128)) :: ·)
        else none
      | _ => none
    else if b0 < 245 then
      match rest with
      | b1 :: b2 :: b3 :: rest4 =>
        if valid4b1 b0 b1 && isCont b2 && isCont b3 then
          (decodeCore fuel rest4).map
            (((b0 - 240) * 262144 + (b1 - 128) * 4096 + (b2 - 128) * 64
              + (b3 - 128)) :: ·)
        else none
      | _ => none
    else none

/-- Embedding of strict UTF-8 decoding (`std::str::from_utf8`): returns
the decoded code points, or `none` when the bytes are not valid UTF-8. -/
def utf8Decode? (l : List Nat) : Option (List Nat) := decodeCore l.length l

/-- Embedding of `String::from_utf8_lossy`: decode UTF-8, replacing each
maximal invalid subpart with U+FFFD (code point 65533). -/
def utf8Lossy : List Nat → List Nat
  | [] => []
  | b0 :: rest =>
    if b0 < 128 then b0 :: utf8Lossy rest
    else if b0 < 194 then 65533 :: utf8Lossy rest
    else if b0 < 224 then
      match rest with
      | [] => [65533]
      | b1 :: rest2 =>
        if isCont b1 then ((b0 - 192) * 64 + (b1 - 128)) :: utf8Lossy rest2
        else 65533 :: utf8Lossy (b1 :: rest2)
    else if b0 < 240 then
      match rest with
      | [] => [65533]
      | b1 :: rest2 =>
        if valid3b1 b0 b1 then
          match rest2 with
          | [] => [65533]
          | b2 :: rest3 =>
            if isCont b2 then
              ((b0 - 224) * 4096 + (b1 - 128) * 64 + (b2 - 128))
                :: utf8Lossy rest3
            else 65533 :: utf8Lossy (b2 :: rest3)
        else 65533 :: utf8Lossy (b1 :: rest2)
    else if b0 < 245 then
      match rest with
      | [] => [65533]
      | b1 :: rest2 =>
        if valid4b1 b0 b1 then
          match rest2 with
          | [] => [65533]
          | b2 :: rest3 =>
            if isCont b2 then
              match rest3 with
              | [] => [65533]
              | b3 :: rest4 =>
                if isCont b3 then
                  ((b0 - 240) * 262144 + (b1 - 128) * 4096 + (b2 - 128) * 64
                    + (b3 - 128)) :: utf8Lossy rest4
                else 65533 :: utf8Lossy (b3 :: rest4)
            else 65533 :: utf8Lossy (b2 :: rest3)
        else 65533 :: utf8Lossy (b1 :: rest2)
    else 65533 :: utf8Lossy rest

/-- Embedding of the `Header` struct of `src/network.rs`: a key/value
pair of strings. -/
structure Header where
  key : Str
  value : Str
  deriving DecidableEq, Repr

/-- Embedding of the `Stat` struct of `src/network.rs`.  Every duration
field is a cumulative time from request start, in nanoseconds. -/
structure Stat where
  ip_address : Option Str := none
  http_version : Option Str := none
  name_lookup : Nat := 0
  connect : Nat := 0
  app_connect : Nat := 0
  pre_transfer : Nat := 0
  start_transfer : Nat := 0
  total : Nat := 0
  response_status_code : Option Int := none
  response_headers : List Header := []
  response_body : List Nat := []
  deriving DecidableEq, Repr

/-- Embedding of `Stat::dns_lookup`. -/
def dns_lookup (s : Stat) : Option Nat := some s.name_lookup

/-- Embedding of `Stat::tcp_handshake`. -/
def tcp_handshake (s : Stat) : Option Nat :=
  if s.name_lookup < s.connect then some (s.connect - s.name_lookup) else none

/-- Embedding of `Stat::tls_handshake`. -/
def tls_handshake (s : Stat) : Option Nat :=
  if s.connect < s.app_connect then some (s.app_connect - s.connect) else none

/-- Embedding of `Stat::waiting`. -/
def waiting (s : Stat) : Option Nat :=
  if s.pre_transfer < s.start_transfer then
    some (s.start_transfer - s.pre_transfer)
  else none

/-- Embedding of `Stat::data_transfer`. -/
def data_transfer (s : Stat) : Option Nat :=
  if s.start_transfer < s.total then some (s.total - s.start_transfer)
  else none

/-- The four-character separator `\r\n\r\n`. -/
def sepCRLF : Str := [13, 10, 13, 10]

/-- Index of the first occurrence of `sepCRLF` in a string, modelling
`str::find("\r\n\r\n")` (the separator is ASCII, so the byte index of the
match corresponds to this code-point index). -/
def findSepIdx : Str → Option Nat
  | [] => none
  | c :: rest =>
    if sepCRLF.isPrefixOf (c :: rest) then some 0
    else (findSepIdx rest).map (· + 1)

/-- Embedding of `Stat::utf8_response_body`: `none` on an empty body,
otherwise the lossily decoded text after the first `\r\n\r\n` separator
(or the whole text when there is none). -/
def utf8_response_body (s : Stat) : Option Str :=
  if s.response_body = [] then none
  else
    let raw := utf8Lossy s.response_body
    let index := ((findSepIdx raw).map (· + 4)).getD 0
    some (raw.drop index)

/-- The cleaned header lines of `TryFrom<&mut Easy2<Decorator>> for Stat`:
split the decoded text on `\n`, delete every `\r` and `\n` character from
each line, and drop the empty lines. -/
def cleanLines (s : Str) : List Str :=
  ((splitChar 10 s).map (List.filter (fun c => !(c = 13 || c = 10)))).filter
    (· ≠ [])

/-- The status-line test of the header loop: the uppercased line starts
with `HTTP/`. -/
def isStatusLine (l : Str) : Bool :=
  (str2cp "HTTP/").isPrefixOf (l.map toUpperCp)

/-- Parser state: the three variables mutated by the header loop of
`TryFrom<&mut Easy2<Decorator>> for Stat`. -/
structure ParseState where
  headers : List Header := []
  http_version : Option Str := none
  response_code : Option Int := none
  deriving DecidableEq, Repr

/-- One iteration of the header loop. -/
def stepLine (st : ParseState) (line : Str) : ParseState :=
  if isStatusLine line then
    match splitOnceChar 47 line with
    | some (_, h) =>
      let tail := splitChar 32 h
      { st with
        response_code := (tail.get? 1).bind parseI32
        http_version := tail.head? }
    | none => st
  else
    match splitOnceChar 58 line with
    | some (name, value) =>
      { st with headers := st.headers ++ [⟨trim name, trim value⟩] }
    | none => st

/-- The header loop over the cleaned lines of a decoded header blob. -/
def parseHeaderText (s : Str) : ParseState :=
  (cleanLines s).foldl stepLine {}

/-- The one error kind of the core: the raw header bytes failed strict
UTF-8 decoding. -/
inductive ParseError where
  | decodeError
  deriving DecidableEq, Repr

/-- Embedding of the header-parsing part of
`TryFrom<&mut Easy2<Decorator>> for Stat`: strict UTF-8 decoding of the
raw header bytes followed by the header loop. -/
def parseRawHeaders (bytes : List Nat) : Except ParseError ParseState :=
  match utf8Decode? bytes with
  | none => .error .decodeError
  | some text => .ok (parseHeaderText text)

/-- Specification view of one cleaned line's contribution to the parsed
header list: status lines and colon-free lines contribute nothing, any
other line contributes its trimmed key/value pair. -/
def lineToHeader (l : Str) : Option Header :=
  if isStatusLine l then none
  else (splitOnceChar 58 l).map (fun p => ⟨trim p.1, trim p.2⟩)

/-- Embedding of `Duration::as_millis` on a nanosecond count. -/
def asMillis (ns : Nat) : Nat := ns / 1000000

/-- Embedding of `Screen::scale_factor` of `src/output.rs`.  The source
returns the `f64` constants 1.0, 5.0, 10.0, 50.0, 100.0, 1000.0, all of
which are exactly these integers. -/
def scale_factor (s : Stat) : Nat :=
  if asMillis s.total ≤ 100 then 1
  else if asMillis s.total ≤ 500 then 5
  else if asMillis s.total ≤ 1000 then 10
  else if asMillis s.total ≤ 5000 then 50
  else if asMillis s.total ≤ 10000 then 100
  else 1000

/-- Fuel-driven binary logarithm: `log2fuel fuel n` is `⌊log₂ n⌋` for
`1 ≤ n ≤ fuel`, and the recursion is structural so the kernel can
evaluate it. -/
def log2fuel : Nat → Nat → Nat
  | 0, _ => 0
  | fuel + 1, n => if n ≤ 1 then 0 else log2fuel fuel (n / 2) + 1

/-- Floor of the binary logarithm of a positive natural number. -/
def natLog2 (n : Nat) : Nat := log2fuel n n

/-- Round `num / den` to the nearest integer, ties to even (the IEEE 754
default rounding used by Rust's float arithmetic). -/
def rndNat (num den : Nat) : Nat :=
  let q := num / den
  let r := num % den
  if 2 * r < den then q
  else if den < 2 * r then q + 1
  else if q % 2 = 0 then q else q + 1

/-- Embedding of `duration_ms as f64`: round the integer to the nearest
IEEE 754 double (53-bit significand, ties to even; the exponent range is
irrelevant for the values this program computes). -/
def toF64N (n : Nat) : Nat :=
  if n ≤ 2 ^ 53 then n
  else
    let k := natLog2 n - 52
    let q := n / 2 ^ k
    let r := n % 2 ^ k
    let h := 2 ^ (k - 1)
    let q' := if h < r ∨ (r = h ∧ q % 2 = 1) then q + 1 else q
    q' * 2 ^ k

/-- Truncation of the correctly rounded IEEE 754 double quotient `A / d`:
the quotient is rounded to 53 significant bits (granularity
`2 ^ (⌊log₂ (A/d)⌋ - 52)`, ties to even) and then cast to `usize`. -/
def f64divFloor (A d : Nat) : Nat :=
  if A < d then 0
  else
    let L := natLog2 (A / d)
    if L ≤ 52 then
      let scale := 2 ^ (52 - L)
      rndNat (A * scale) d / scale
    else
      let scale := 2 ^ (L - 52)
      rndNat A (d * scale) * scale

/-- The bar length of `Screen::event_bar`: the event's milliseconds cast
to `f64`, divided by the divisor, then cast to `usize`. -/
def barLenF64 (ms d : Nat) : Nat := f64divFloor (toF64N ms) d

/-- Embedding of `Screen::event_bar`: the filled-block glyph U+2588
(code point 9608) repeated `barLenF64` times. -/
def event_bar (s : Stat) (dur_ns : Nat) : Str :=
  List.replicate (barLenF64 (asMillis dur_ns) (scale_factor s)) 9608

/-- One word of `Header::header_key`: uppercase the character at index 0,
lowercase the others (the source enumerates the characters). -/
def capitalizeEnum (w : Str) : Str :=
  w.enum.map (fun p => if p.1 = 0 then toUpperCp p.2 else toLowerCp p.2)

/-- Embedding of `Header::header_key`: split the key on `-`, capitalize
each word, and rejoin with `-`. -/
def headerKey (key : Str) : Str :=
  List.intercalate [45] ((splitChar 45 key).map capitalizeEnum)

/-- Modelled from the spec: the Train-Case transform, stated as in §4.4 —
the first letter of each hyphen-separated segment uppercased, the rest
lowercased. -/
def trainCase (key : Str) : Str :=
  List.intercalate [45] ((splitChar 45 key).map capWordSpec)
where
  capWordSpec : Str → Str
    | [] => []
    | c :: cs => toUpperCp c :: cs.map toLowerCp

/-- Embedding of `impl Display for Header`: `"{key}: {value}"`. -/
def headerDisplay (h : Header) : Str := h.key ++ str2cp ": " ++ h.value

/-- Embedding of `impl FromStr for Header`: split at the first `:` and
trim both parts; `none` models the error case. -/
def headerFromStr (s : Str) : Option Header :=
  (splitOnceChar 58 s).map (fun p => ⟨trim p.1, trim p.2⟩)

/-- Embedding of the `Color` enum of `src/color.rs`. -/
inductive Color where
  | black | red | green | yellow | blue | magenta | cyan | white
  deriving DecidableEq, Repr

/-- The ANSI code of a color (the enum discriminants of the source). -/
def Color.code : Color → Nat
  | .black => 30
  | .red => 31
  | .green => 32
  | .yellow => 33
  | .blue => 34
  | .magenta => 35
  | .cyan => 36
  | .white => 37

/-- Embedding of `Color::paint` / `make_color!`:
`"\x1b[{code}m{text}\x1b[0m"`. -/
def paint (c : Color) (text : Str) : Str :=
  [27, 91] ++ natDigits c.code ++ [109] ++ text ++ [27, 91, 48, 109]

/-- The fields of the `Config` struct of `src/network.rs` that the
renderer reads (the request-side fields do not flow into `display`). -/
structure Config where
  color : Color := .white
  display_response_body : Bool := false
  display_response_headers : Bool := false
  deriving DecidableEq, Repr

/-- Embedding of the `NetworkEvent` struct of `src/output.rs`. -/
structure NetworkEvent where
  name : Str
  duration : Nat
  deriving DecidableEq, Repr

/-- The five optional events of `Screen::display_network_timings`, in
source order. -/
def eventsNetwork (s : Stat) : List (Option NetworkEvent) :=
  [(dns_lookup s).map (⟨str2cp "DNS Lookup", ·⟩),
   (tcp_handshake s).map (⟨str2cp "TCP Handshake", ·⟩),
   (tls_handshake s).map (⟨str2cp "TLS Handshake", ·⟩),
   (waiting s).map (⟨str2cp "Server Processing", ·⟩),
   (data_transfer s).map (⟨str2cp "Content Transfer", ·⟩)]

/-- The six optional events of `Screen::display_detailed_timings`, in
source order; these use the cumulative values directly. -/
def eventsDetailed (s : Stat) : List (Option NetworkEvent) :=
  [some ⟨str2cp "Name Lookup", s.name_lookup⟩,
   some ⟨str2cp "Connect", s.connect⟩,
   (tls_handshake s).map (fun _ => ⟨str2cp "App Connect", s.app_connect⟩),
   some ⟨str2cp "Pre Transfer", s.pre_transfer⟩,
   some ⟨str2cp "Start Transfer", s.start_transfer⟩,
   some ⟨str2cp "Total", s.total⟩]

/-- Left-pad to a column width with spaces: `"{:<width$}"` (width counts
characters; no-op when the text is already wider). -/
def padTo (w : Nat) (s : Str) : Str := s ++ List.replicate (w - s.length) 32

/-- One line of `Screen::display_events`:
`"{name:<35} {bar} {duration_ms}ms"` with the name painted. -/
def eventLine (cfg : Config) (s : Stat) (e : NetworkEvent) : Str :=
  padTo 35 (paint cfg.color e.name) ++ [32] ++ event_bar s e.duration
    ++ [32] ++ natDigits (asMillis e.duration) ++ str2cp "ms"

/-- Embedding of `Screen::display_events`: print one line per present
event, in order, appending to the output stream. -/
def displayEvents (cfg : Config) (s : Stat) (events : List (Option NetworkEvent))
    (out : List Str) : List Str :=
  (events.filterMap id).foldl (fun acc e => acc ++ [eventLine cfg s e]) out

/-- Embedding of `Screen::display_response_headers`: a blank line, the
status line, then one padded line per stored header with the key in
Train-Case, using the clamped column width. -/
def displayHeadersSection (cfg : Config) (s : Stat) (out : List Str) :
    List Str :=
  let out := out ++ [[]]
  let out := out ++ [str2cp "HTTP/" ++ s.http_version.getD (str2cp "Unknown")
    ++ [32] ++ intToStr (s.response_status_code.getD 0)]
  let maxLen := ((s.response_headers.map (fun h => h.key.length)).max?).getD 35
  let width := if maxLen > 50 then 50 else if maxLen < 35 then 35 else maxLen
  s.response_headers.foldl
    (fun acc h =>
      acc ++ [padTo width (paint cfg.color (headerKey h.key)) ++ [32]
        ++ padTo width h.value])
    out

/-- Embedding of `Screen::display_response_body`: when the decoded body
is present, a title line, a blank line, and the painted body. -/
def displayBodySection (cfg : Config) (s : Stat) (out : List Str) :
    List Str :=
  match utf8_response_body s with
  | some body =>
    out ++ [str2cp "Response Body:"] ++ [[]] ++ [paint cfg.color body]
  | none => out

/-- Embedding of `Screen::display`: the full report, printed section by
section onto the output stream `out` (each `println!` appends one
line). -/
def display (cfg : Config) (s : Stat) (out : List Str) : List Str :=
  let out := out ++ [[]]
  let out := out ++ [str2cp "Connect "
    ++ paint cfg.color (s.ip_address.getD (str2cp "Unknown"))]
  let out := out ++ [[]]
  let out := out ++ [str2cp "Network Timings:"]
  let out := displayEvents cfg s (eventsNetwork s) out
  let out := out ++ [[]]
  let out := out ++ [str2cp "Detailed Timings:"]
  let out := displayEvents cfg s (eventsDetailed s) out
  let out :=
    if cfg.display_response_headers then
      displayHeadersSection cfg s (out ++ [[]])
    else out
  if cfg.display_response_body then displayBodySection cfg s (out ++ [[]])
  else out

/-! ### Claim C7: bar length -/

/-- The fuel-driven binary logarithm brackets its argument between
consecutive powers of two. -/
theorem log2fuel_bracket : ∀ (fuel n : Nat), 1 ≤ n → n ≤ fuel →
    2 ^ log2fuel fuel n ≤ n ∧ n < 2 ^ (log2fuel fuel n + 1) := by
  intro fuel
  induction fuel with
  | zero => intro n h1 h2; omega
  | succ fuel ih =>
    intro n h1 h2
    rw [log2fuel]
    by_cases hn : n ≤ 1
    · rw [if_pos hn]
      norm_num
      omega
    · rw [if_neg hn]
      obtain ⟨ha, hb⟩ := ih (n / 2) (by omega) (by omega)
      have e1 : 2 ^ (log2fuel fuel (n / 2) + 1) =
          2 ^ log2fuel fuel (n / 2) * 2 := pow_succ 2 _
      have e2 : 2 ^ (log2fuel fuel (n / 2) + 1 + 1) =
          2 ^ (log2fuel fuel (n / 2) + 1) * 2 := pow_succ 2 _
      omega

/-- Bracketing for `natLog2`. -/
theorem natLog2_bracket (n : Nat) (h : 1 ≤ n) :
    2 ^ natLog2 n ≤ n ∧ n < 2 ^ (natLog2 n + 1) :=
  log2fuel_bracket n n h le_rfl

/-- Round-half-even never undershoots the floor of the quotient. -/
theorem rndNat_ge (num den : Nat) : num / den ≤ rndNat num den := by
  simp only [rndNat]
  split_ifs <;> omega

/-- Round-half-even never overshoots the floor of the quotient by more
than one. -/
theorem rndNat_le (num den : Nat) : rndNat num den ≤ num / den + 1 := by
  simp only [rndNat]
  split_ifs <;> omega

/-- The divisor selected by `scale_factor` is positive and at most
1000. -/
theorem scale_factor_bounds (s : Stat) :
    0 < scale_factor s ∧ scale_factor s ≤ 1000 := by
  unfold scale_factor
  split_ifs <;> omega

/-- Below `10 ^ 12` the cast to `f64` is exact. -/
theorem toF64N_small (ms : Nat) (h : ms ≤ 10 ^ 12) : toF64N ms = ms := by
  unfold toF64N
  rw [if_pos (by norm_num at h ⊢; omega)]

/-- For event durations of at most `10 ^ 12` milliseconds, the rounded
`f64` division truncates to exactly the integer quotient. -/
theorem barLenF64_eq (ms d : Nat) (hd : 0 < d) (hd2 : d ≤ 1000)
    (hms : ms ≤ 10 ^ 12) : barLenF64 ms d = ms / d := by
  unfold barLenF64
  rw [toF64N_small ms hms]
  simp only [f64divFloor]
  by_cases hlt : ms < d
  · rw [if_pos hlt, Nat.div_eq_of_lt hlt]
  · rw [if_neg hlt]
    have hge : d ≤ ms := by omega
    have hq1 : 1 ≤ ms / d := (Nat.one_le_div_iff hd).mpr hge
    obtain ⟨hbl, hbu⟩ := natLog2_bracket (ms / d) hq1
    have hL : natLog2 (ms / d) ≤ 39 := by
      by_contra hc
      have h40 : (2 : Nat) ^ 40 ≤ 2 ^ natLog2 (ms / d) :=
        Nat.pow_le_pow_right (by omega) (by omega)
      have hle : ms / d ≤ 10 ^ 12 := le_trans (Nat.div_le_self ms d) hms
      have : (2 : Nat) ^ 40 = 1099511627776 := by norm_num
      omega
    rw [if_pos (by omega)]
    have hscale : (2 : Nat) ^ 13 ≤ 2 ^ (52 - natLog2 (ms / d)) :=
      Nat.pow_le_pow_right (by omega) (by omega)
    have h13 : (2 : Nat) ^ 13 = 8192 := by norm_num
    set scale := 2 ^ (52 - natLog2 (ms / d)) with hscaledef
    set k := ms / d with hk
    set m := rndNat (ms * scale) d with hm
    have hds : d < scale := by omega
    have hlow : k * scale ≤ m := by
      refine le_trans ?_ (rndNat_ge (ms * scale) d)
      rw [Nat.le_div_iff_mul_le hd]
      calc k * scale * d = k * d * scale := by ring
        _ ≤ ms * scale :=
          Nat.mul_le_mul_right scale (by rw [hk]; exact Nat.div_mul_le_self ms d)
    have hhigh : m < (k + 1) * scale := by
      have hmsub : ms + 1 ≤ d * (k + 1) := by
        have hdm : d * k + ms % d = ms := by rw [hk]; exact Nat.div_add_mod ms d
        have hmod : ms % d < d := Nat.mod_lt ms hd
        have hms1 : d * (k + 1) = d * k + d := by ring
        omega
      have hstep : ms * scale + scale ≤ (k + 1) * scale * d := by
        calc ms * scale + scale = (ms + 1) * scale := by ring
          _ ≤ d * (k + 1) * scale := Nat.mul_le_mul_right scale hmsub
          _ = (k + 1) * scale * d := by ring
      have h2' : ms * scale + d + d ≤ (k + 1) * scale * d := by omega
      have hq' : ms * scale / d + 2 ≤ (k + 1) * scale := by
        calc ms * scale / d + 2 = (ms * scale + d + d) / d := by
              rw [Nat.add_div_right _ hd, Nat.add_div_right _ hd]
          _ ≤ (k + 1) * scale * d / d := Nat.div_le_div_right h2'
          _ = (k + 1) * scale := Nat.mul_div_cancel _ hd
      have hml : m ≤ ms * scale / d + 1 := rndNat_le (ms * scale) d
      omega
    have := Nat.div_eq_of_lt_le hlow hhigh
    rw [this]

/-- A `Stat` whose DNS phase lasts about 761 thousand years: the `f64`
division of its millisecond count by the divisor 5 rounds up across an
integer boundary. -/
def c7Stat : Stat :=
  { name_lookup := 24000000000000004000000, total := 300000000 }

/-- C7, counterexample.  At 24000000000000004 ms with divisor 5 the code
renders 4800000000000001 glyphs although
`floor(duration_ms / divisor) = 4800000000000000`: the `f64` division
rounds up across the integer boundary, so the truncating-division claim
fails for this event duration. -/
theorem spec_C7_counterexample :
    (event_bar c7Stat c7Stat.name_lookup).length = 4800000000000001 ∧
    asMillis c7Stat.name_lookup / scale_factor c7Stat =
      4800000000000000 := by
  constructor
  · rw [event_bar, List.length_replicate]
    decide
  · decide

/-- C7, amended.  For every event duration of at most `10 ^ 12`
milliseconds (the claim as stated fails only for astronomically long
events whose quotient exceeds the 53-bit `f64` significand), the
rendered bar consists of exactly `floor(event_duration_ms / divisor)`
repetitions of the filled-block glyph, truncating, so an event shorter
than one divisor unit renders an empty bar. -/
theorem spec_C7 : ∀ (s : Stat) (dur : Nat), asMillis dur ≤ 10 ^ 12 →
    event_bar s dur = List.replicate (asMillis dur / scale_factor s) 9608 := by
  intro s dur h
  unfold event_bar
  rw [barLenF64_eq (asMillis dur) (scale_factor s) (scale_factor_bounds s).1
    (scale_factor_bounds s).2 h]

/-- A `Stat` with a 7 ms DNS phase and a 300 ms total (divisor 5). -/
def c7wStat : Stat := { name_lookup := 7000000, total := 300000000 }

/-- C7, witness: the 7 ms event against divisor 5 renders one glyph. -/
theorem spec_C7_witness :
    event_bar c7wStat c7wStat.name_lookup = List.replicate 1 9608 := by
  rw [spec_C7 c7wStat c7wStat.name_lookup (by decide)]
  decide

/-! ### Claim C9: rendering is deterministic and stateless -/

/-- Printing a line per element only appends to the stream. -/
theorem foldl_append_map {α : Type} (f : α → Str) :
    ∀ (l : List α) (out : List Str),
      l.foldl (fun acc e => acc ++ [f e]) out = out ++ l.map f := by
  intro l
  induction l with
  | nil => simp
  | cons a l ih =>
    intro out
    rw [List.foldl_cons, ih]
    simp

/-- `display_events` appends exactly one line per present event. -/
theorem displayEvents_norm (cfg : Config) (s : Stat)
    (evs : List (Option NetworkEvent)) (out : List Str) :
    displayEvents cfg s evs out =
      out ++ (evs.filterMap id).map (eventLine cfg s) := by
  unfold displayEvents
  rw [foldl_append_map]

/-- The block printed by `display_response_headers` on an empty
stream. -/
def headersBlock (cfg : Config) (s : Stat) : List Str :=
  displayHeadersSection cfg s []

/-- The block printed by `display_response_body` on an empty stream. -/
def bodyBlock (cfg : Config) (s : Stat) : List Str :=
  displayBodySection cfg s []

/-- `display_response_headers` appends exactly its block. -/
theorem displayHeadersSection_norm (cfg : Config) (s : Stat)
    (out : List Str) :
    displayHeadersSection cfg s out = out ++ headersBlock cfg s := by
  unfold headersBlock displayHeadersSection
  rw [foldl_append_map, foldl_append_map]
  simp

/-- `display_response_body` appends exactly its block. -/
theorem displayBodySection_norm (cfg : Config) (s : Stat) (out : List Str) :
    displayBodySection cfg s out = out ++ bodyBlock cfg s := by
  unfold bodyBlock displayBodySection
  match utf8_response_body s with
  | some body => simp
  | none => simp

/-- `Screen::display` only appends to the output stream, and the
appended block is a function of the configuration and the `Stat`
alone. -/
theorem display_eq (cfg : Config) (s : Stat) (out : List Str) :
    display cfg s out = out ++ display cfg s [] := by
  unfold display
  by_cases hH : cfg.display_response_headers = true <;>
    by_cases hB : cfg.display_response_body = true <;>
    simp only [hH, hB, eq_self_iff_true, if_true, if_false,
      Bool.false_eq_true, displayEvents_norm, displayHeadersSection_norm,
      displayBodySection_norm, List.append_assoc, List.nil_append,
      List.cons_append, List.append_nil]

/-- C9.  Rendering is deterministic and stateless: for every fixed
`Config` and `Stat`, `display` appends a block that depends only on
them, and a second invocation appends the byte-identical block again —
no hidden mutable state is read or written between invocations. -/
theorem spec_C9 : ∀ (cfg : Config) (s : Stat) (out : List Str),
    display cfg s out = out ++ display cfg s [] ∧
    display cfg s (display cfg s out) =
      out ++ display cfg s [] ++ display cfg s [] := by
  intro cfg s out
  refine ⟨display_eq cfg s out, ?_⟩
  rw [display_eq cfg s (display cfg s out), display_eq cfg s out,
    List.append_assoc]

/-! ### Claim C1: guarded pairwise subtractions of cumulative durations -/

/-- C1.  For every `Stat`, `tcp_handshake`, `waiting` and `data_transfer`
are guarded pairwise subtractions of cumulative durations: each returns
`some (later - earlier)` exactly when the later cumulative duration is
strictly greater, `none` otherwise, and every returned interval is
positive (in particular never negative). -/
theorem spec_C1 : ∀ s : Stat,
    (tcp_handshake s = some (s.connect - s.name_lookup) ↔
      s.name_lookup < s.connect) ∧
    (tcp_handshake s = none ↔ s.connect ≤ s.name_lookup) ∧
    (tcp_handshake s).all (fun d => decide (0 < d)) = true ∧
    (waiting s = some (s.start_transfer - s.pre_transfer) ↔
      s.pre_transfer < s.start_transfer) ∧
    (waiting s = none ↔ s.start_transfer ≤ s.pre_transfer) ∧
    (waiting s).all (fun d => decide (0 < d)) = true ∧
    (data_transfer s = some (s.total - s.start_transfer) ↔
      s.start_transfer < s.total) ∧
    (data_transfer s = none ↔ s.total ≤ s.start_transfer) ∧
    (data_transfer s).all (fun d => decide (0 < d)) = true := by
  intro s
  unfold tcp_handshake waiting data_transfer
  refine ⟨?_, ?_, ?_, ?_, ?_, ?_, ?_, ?_, ?_⟩ <;> split_ifs <;> simp_all

/-! ### Claim C2: `tls_handshake` absence -/

/-- A `Stat` whose `app_connect` is smaller than its `connect`. -/
def c2Stat : Stat := { connect := 2, app_connect := 1 }

/-- C2, counterexample.  The claim says `tls_handshake` is `none` exactly
when `app_connect == connect`; on a `Stat` with `app_connect < connect`
the code also returns `none` although the two fields differ. -/
theorem spec_C2_counterexample :
    tls_handshake c2Stat = none ∧ c2Stat.app_connect ≠ c2Stat.connect := by
  decide

/-- C2, amended.  For every `Stat` whose cumulative timestamps satisfy
`connect ≤ app_connect` (as the transfer engine guarantees),
`tls_handshake` is `none` exactly when `app_connect == connect`, and
otherwise returns `some (app_connect - connect)`, a positive duration. -/
theorem spec_C2 : ∀ s : Stat, s.connect ≤ s.app_connect →
    (tls_handshake s = none ↔ s.app_connect = s.connect) ∧
    ∀ d, tls_handshake s = some d →
      d = s.app_connect - s.connect ∧ 0 < d := by
  intro s h
  unfold tls_handshake
  split_ifs <;> simp_all <;> omega

/-- A `Stat` with a TLS phase of 2 nanoseconds. -/
def c2wStat : Stat := { connect := 1, app_connect := 3 }

/-- C2, witness: the amended theorem applied at a concrete `Stat`. -/
theorem spec_C2_witness :
    (tls_handshake c2wStat = none ↔ c2wStat.app_connect = c2wStat.connect) ∧
    (2 = c2wStat.app_connect - c2wStat.connect ∧ 0 < 2) := by
  have h := spec_C2 c2wStat (by decide)
  exact ⟨h.1, h.2 2 (by decide)⟩

/-! ### Claim C6: the visualization scale factor -/

/-- C6.  The scale factor is a total function of the total duration in
integer milliseconds, given exactly by the spec's table, with the stated
values at the boundaries 100, 101, 10000 and 10001 ms. -/
theorem spec_C6 : (∀ s : Stat,
    (asMillis s.total ≤ 100 → scale_factor s = 1) ∧
    (101 ≤ asMillis s.total → asMillis s.total ≤ 500 → scale_factor s = 5) ∧
    (501 ≤ asMillis s.total → asMillis s.total ≤ 1000 →
      scale_factor s = 10) ∧
    (1001 ≤ asMillis s.total → asMillis s.total ≤ 5000 →
      scale_factor s = 50) ∧
    (5001 ≤ asMillis s.total → asMillis s.total ≤ 10000 →
      scale_factor s = 100) ∧
    (10001 ≤ asMillis s.total → scale_factor s = 1000)) ∧
    scale_factor { total := 100000000 } = 1 ∧
    scale_factor { total := 101000000 } = 5 ∧
    scale_factor { total := 10000000000 } = 100 ∧
    scale_factor { total := 10001000000 } = 1000 := by
  refine ⟨fun s => ?_, by decide, by decide, by decide, by decide⟩
  refine ⟨?_, ?_, ?_, ?_, ?_, ?_⟩ <;> intros <;> unfold scale_factor <;>
    split_ifs <;> omega

/-- C6, witness: the table applied at a concrete total of 200 ms. -/
theorem spec_C6_witness : scale_factor { total := 200000000 } = 5 :=
  (spec_C6.1 { total := 200000000 }).2.1 (by decide) (by decide)

/-! ### Claim C8: the Train-Case transform -/

/-- Indices of `List.enumFrom` past the head are never zero, so the
enumerating capitalizer lowercases every later character. -/
theorem enumFrom_map_ne_zero (cs : Str) (n : Nat) :
    (List.enumFrom (n + 1) cs).map
      (fun p => if p.1 = 0 then toUpperCp p.2 else toLowerCp p.2) =
    cs.map toLowerCp := by
  induction cs generalizing n with
  | nil => rfl
  | cons c cs ih =>
    simp only [List.enumFrom, List.map]
    rw [if_neg (by omega)]
    exact congrArg _ (ih (n + 1))

/-- The enumerating word capitalizer agrees with the head/tail
formulation of Train-Case. -/
theorem capitalizeEnum_eq_capWordSpec (w : Str) :
    capitalizeEnum w = trainCase.capWordSpec w := by
  cases w with
  | nil => rfl
  | cons c cs =>
    simp only [capitalizeEnum, List.enum, List.enumFrom, List.map,
      trainCase.capWordSpec, if_pos rfl]
    exact congrArg _ (enumFrom_map_ne_zero cs 0)

/-- C8.  `Header::header_key` is the Train-Case transform: the first
character of each hyphen-separated segment is uppercased and the rest
lowercased, rejoined with hyphens; in particular `content-type` maps to
`Content-Type`, `X-REQUEST-ID` to `X-Request-Id` and `host` to `Host`. -/
theorem spec_C8 : (∀ key, headerKey key = trainCase key) ∧
    headerKey (str2cp "content-type") = str2cp "Content-Type" ∧
    headerKey (str2cp "X-REQUEST-ID") = str2cp "X-Request-Id" ∧
    headerKey (str2cp "host") = str2cp "Host" := by
  refine ⟨fun key => ?_, by decide, by decide, by decide⟩
  unfold headerKey trainCase
  rw [funext capitalizeEnum_eq_capWordSpec]

/-! ### Claim C5: strict decoding fails exactly on invalid UTF-8 -/

/-- Arithmetic reading of the continuation-byte test. -/
theorem isCont_iff (b : Nat) : isCont b = true ↔ 128 ≤ b ∧ b < 192 := by
  simp [isCont]

/-- Arithmetic reading of the scalar-value test. -/
theorem isScalar_iff (c : Nat) :
    isScalar c = true ↔ c < 1114112 ∧ ¬(55296 ≤ c ∧ c < 57344) := by
  simp [isScalar]; omega

/-- Any amount of fuel decodes the empty byte sequence. -/
theorem decodeCore_nil (f : Nat) : decodeCore f [] = some [] := by
  cases f <;> rfl

/-- Fuel does not run out on a cons. -/
theorem decodeCore_zero (b0 : Nat) (rest : List Nat) :
    decodeCore 0 (b0 :: rest) = none := rfl

/-- One-byte (ASCII) step of the decoder. -/
theorem decodeCore_ascii (f b0 : Nat) (rest : List Nat) (h : b0 < 128) :
    decodeCore (f + 1) (b0 :: rest) = (decodeCore f rest).map (b0 :: ·) := by
  rw [decodeCore.eq_def]
  dsimp only
  rw [if_pos h]

/-- Two-byte step of the decoder. -/
theorem decodeCore_two (f b0 b1 : Nat) (rest : List Nat) (h1 : 194 ≤ b0)
    (h2 : b0 < 224) (h3 : isCont b1 = true) :
    decodeCore (f + 1) (b0 :: b1 :: rest) =
      (decodeCore f rest).map (((b0 - 192) * 64 + (b1 - 128)) :: ·) := by
  rw [decodeCore.eq_def]
  dsimp only
  rw [if_neg (by omega), if_neg (by omega), if_pos (by omega)]
  simp only [h3, if_pos]

/-- Three-byte step of the decoder. -/
theorem decodeCore_three (f b0 b1 b2 : Nat) (rest : List Nat)
    (h1 : 224 ≤ b0) (h2 : b0 < 240) (h3 : valid3b1 b0 b1 = true)
    (h4 : isCont b2 = true) :
    decodeCore (f + 1) (b0 :: b1 :: b2 :: rest) =
      (decodeCore f rest).map
        (((b0 - 224) * 4096 + (b1 - 128) * 64 + (b2 - 128)) :: ·) := by
  rw [decodeCore.eq_def]
  dsimp only
  rw [if_neg (by omega), if_neg (by omega), if_neg (by omega),
    if_pos (by omega)]
  simp only [h3, h4, Bool.and_self, if_pos]

/-- Four-byte step of the decoder. -/
theorem decodeCore_four (f b0 b1 b2 b3 : Nat) (rest : List Nat)
    (h1 : 240 ≤ b0) (h2 : b0 < 245) (h3 : valid4b1 b0 b1 = true)
    (h4 : isCont b2 = true) (h5 : isCont b3 = true) :
    decodeCore (f + 1) (b0 :: b1 :: b2 :: b3 :: rest) =
      (decodeCore f rest).map
        (((b0 - 240) * 262144 + (b1 - 128) * 4096 + (b2 - 128) * 64
          + (b3 - 128)) :: ·) := by
  rw [decodeCore.eq_def]
  dsimp only
  rw [if_neg (by omega), if_neg (by omega), if_neg (by omega),
    if_neg (by omega), if_pos (by omega)]
  simp only [h3, h4, h5, Bool.and_self, if_pos]

/-- The decoder's result does not depend on the fuel, once the fuel
covers the input length. -/
theorem decodeCore_congr (f1 : Nat) : ∀ (l : List Nat) (f2 : Nat),
    l.length ≤ f1 → l.length ≤ f2 → decodeCore f1 l = decodeCore f2 l := by
  induction f1 with
  | zero =>
    intro l f2 hl1 _
    match l with
    | [] => rw [decodeCore_nil, decodeCore_nil]
    | b :: rest => simp at hl1
  | succ f1 ih =>
    intro l f2 hl1 hl2
    match l with
    | [] => rw [decodeCore_nil, decodeCore_nil]
    | b0 :: rest =>
      match f2 with
      | 0 => simp at hl2
      | f2 + 1 =>
        rw [decodeCore.eq_def, decodeCore.eq_def]
        dsimp only
        simp only [List.length_cons, Nat.succ_le_succ_iff] at hl1 hl2
        split_ifs
        · rw [ih rest f2 hl1 hl2]
        · rfl
        · match rest with
          | [] => rfl
          | b1 :: rest2 =>
            dsimp only
            split_ifs
            · rw [ih rest2 f2 (by simp at hl1 ⊢; omega)
                (by simp at hl2 ⊢; omega)]
            · rfl
        · match rest with
          | [] => rfl
          | [b1] => rfl
          | b1 :: b2 :: rest3 =>
            dsimp only
            split_ifs
            · rw [ih rest3 f2 (by simp at hl1 ⊢; omega)
                (by simp at hl2 ⊢; omega)]
            · rfl
        · match rest with
          | [] => rfl
          | [b1] => rfl
          | [b1, b2] => rfl
          | b1 :: b2 :: b3 :: rest4 =>
            dsimp only
            split_ifs
            · rw [ih rest4 f2 (by simp at hl1 ⊢; omega)
                (by simp at hl2 ⊢; omega)]
            · rfl
        · rfl

/-- Decoding the encoding of one scalar value consumes exactly its bytes
and emits the value. -/
theorem utf8Decode?_encodeCp (c : Nat) (h : isScalar c = true)
    (rest : List Nat) :
    utf8Decode? (utf8EncodeCp c ++ rest) = (utf8Decode? rest).map (c :: ·) := by
  rw [isScalar_iff] at h
  unfold utf8Decode?
  unfold utf8EncodeCp
  split_ifs with h1 h2 h3
  · simp only [List.cons_append, List.nil_append, List.length_cons]
    rw [decodeCore_ascii _ _ _ h1]
  · simp only [List.cons_append, List.nil_append, List.length_cons]
    rw [decodeCore_two _ _ _ _ (by omega) (by omega)
        (by rw [isCont_iff]; omega),
      decodeCore_congr (rest.length + 1) rest rest.length
        (by omega) (by omega)]
    have hv : (192 + c / 64 - 192) * 64 + (128 + c % 64 - 128) = c := by
      omega
    rw [hv]
  · have hb1 : valid3b1 (224 + c / 4096) (128 + c / 64 % 64) = true := by
      unfold valid3b1
      split_ifs with e0 ed <;> simp [isCont] <;> omega
    simp only [List.cons_append, List.nil_append, List.length_cons]
    rw [decodeCore_three _ _ _ _ _ (by omega) (by omega) hb1
        (by rw [isCont_iff]; omega),
      decodeCore_congr (rest.length + 1 + 1) rest rest.length
        (by omega) (by omega)]
    have hv : (224 + c / 4096 - 224) * 4096 + (128 + c / 64 % 64 - 128) * 64
        + (128 + c % 64 - 128) = c := by omega
    rw [hv]
  · have hb1 : valid4b1 (240 + c / 262144) (128 + c / 4096 % 64) = true := by
      unfold valid4b1
      split_ifs with e0 e4 <;> simp [isCont] <;> omega
    simp only [List.cons_append, List.nil_append, List.length_cons]
    rw [decodeCore_four _ _ _ _ _ _ (by omega) (by omega) hb1
        (by rw [isCont_iff]; omega) (by rw [isCont_iff]; omega),
      decodeCore_congr (rest.length + 1 + 1 + 1) rest rest.length
        (by omega) (by omega)]
    have hv : (240 + c / 262144 - 240) * 262144
        + (128 + c / 4096 % 64 - 128) * 4096 + (128 + c / 64 % 64 - 128) * 64
        + (128 + c % 64 - 128) = c := by omega
    rw [hv]

/-- Arithmetic reading of the three-byte first-continuation test. -/
theorem valid3b1_true {b0 b1 : Nat} (h : valid3b1 b0 b1 = true) :
    (b0 = 224 ∧ 160 ≤ b1 ∧ b1 < 192) ∨ (b0 = 237 ∧ 128 ≤ b1 ∧ b1 < 160) ∨
    (b0 ≠ 224 ∧ b0 ≠ 237 ∧ 128 ≤ b1 ∧ b1 < 192) := by
  unfold valid3b1 at h
  split_ifs at h with e0 ed
  · exact Or.inl ⟨e0, by simpa using h⟩
  · exact Or.inr (Or.inl ⟨ed, by simpa using h⟩)
  · exact Or.inr (Or.inr ⟨e0, ed, by simpa [isCont] using h⟩)

/-- Arithmetic reading of the four-byte first-continuation test. -/
theorem valid4b1_true {b0 b1 : Nat} (h : valid4b1 b0 b1 = true) :
    (b0 = 240 ∧ 144 ≤ b1 ∧ b1 < 192) ∨ (b0 = 244 ∧ 128 ≤ b1 ∧ b1 < 144) ∨
    (b0 ≠ 240 ∧ b0 ≠ 244 ∧ 128 ≤ b1 ∧ b1 < 192) := by
  unfold valid4b1 at h
  split_ifs at h with e0 e4
  · exact Or.inl ⟨e0, by simpa using h⟩
  · exact Or.inr (Or.inl ⟨e4, by simpa using h⟩)
  · exact Or.inr (Or.inr ⟨e0, e4, by simpa [isCont] using h⟩)

/-- A two-byte sequence accepted by the decoder denotes a scalar value
whose encoding is that sequence. -/
theorem encodeCp_two {b0 b1 : Nat} (h1 : 194 ≤ b0) (h2 : b0 < 224)
    (h3 : 128 ≤ b1) (h4 : b1 < 192) :
    isScalar ((b0 - 192) * 64 + (b1 - 128)) = true ∧
    utf8EncodeCp ((b0 - 192) * 64 + (b1 - 128)) = [b0, b1] := by
  refine ⟨by rw [isScalar_iff]; omega, ?_⟩
  unfold utf8EncodeCp
  rw [if_neg (by omega), if_pos (by omega)]
  have e1 : 192 + ((b0 - 192) * 64 + (b1 - 128)) / 64 = b0 := by omega
  have e2 : 128 + ((b0 - 192) * 64 + (b1 - 128)) % 64 = b1 := by omega
  rw [e1, e2]

/-- A three-byte sequence accepted by the decoder denotes a scalar value
whose encoding is that sequence. -/
theorem encodeCp_three {b0 b1 b2 : Nat} (h1 : 224 ≤ b0) (h2 : b0 < 240)
    (hv : valid3b1 b0 b1 = true) (h3 : 128 ≤ b2) (h4 : b2 < 192) :
    isScalar ((b0 - 224) * 4096 + (b1 - 128) * 64 + (b2 - 128)) = true ∧
    utf8EncodeCp ((b0 - 224) * 4096 + (b1 - 128) * 64 + (b2 - 128)) =
      [b0, b1, b2] := by
  have hb1 := valid3b1_true hv
  have hs : isScalar ((b0 - 224) * 4096 + (b1 - 128) * 64 + (b2 - 128)) =
      true := by
    rw [isScalar_iff]
    rcases hb1 with ⟨e, hb⟩ | ⟨e, hb⟩ | ⟨e1, e2, hb⟩ <;> omega
  refine ⟨hs, ?_⟩
  unfold utf8EncodeCp
  have hrange : 2048 ≤ (b0 - 224) * 4096 + (b1 - 128) * 64 + (b2 - 128) ∧
      (b0 - 224) * 4096 + (b1 - 128) * 64 + (b2 - 128) < 65536 := by
    rcases hb1 with ⟨e, hb⟩ | ⟨e, hb⟩ | ⟨e1, e2, hb⟩ <;> omega
  rw [if_neg (by omega), if_neg (by omega), if_pos (by omega)]
  have hb : 128 ≤ b1 ∧ b1 < 192 := by
    rcases hb1 with ⟨e, hb⟩ | ⟨e, hb⟩ | ⟨e1, e2, hb⟩ <;> omega
  have e1 : 224 + ((b0 - 224) * 4096 + (b1 - 128) * 64 + (b2 - 128)) / 4096 =
      b0 := by omega
  have e2 : 128 + ((b0 - 224) * 4096 + (b1 - 128) * 64 + (b2 - 128)) / 64 % 64
      = b1 := by omega
  have e3 : 128 + ((b0 - 224) * 4096 + (b1 - 128) * 64 + (b2 - 128)) % 64 =
      b2 := by omega
  rw [e1, e2, e3]

/-- A four-byte sequence accepted by the decoder denotes a scalar value
whose encoding is that sequence. -/
theorem encodeCp_four {b0 b1 b2 b3 : Nat} (h1 : 240 ≤ b0) (h2 : b0 < 245)
    (hv : valid4b1 b0 b1 = true) (h3 : 128 ≤ b2) (h4 : b2 < 192)
    (h5 : 128 ≤ b3) (h6 : b3 < 192) :
    isScalar ((b0 - 240) * 262144 + (b1 - 128) * 4096 + (b2 - 128) * 64
      + (b3 - 128)) = true ∧
    utf8EncodeCp ((b0 - 240) * 262144 + (b1 - 128) * 4096 + (b2 - 128) * 64
      + (b3 - 128)) = [b0, b1, b2, b3] := by
  have hb1 := valid4b1_true hv
  have hrange : 65536 ≤ (b0 - 240) * 262144 + (b1 - 128) * 4096
      + (b2 - 128) * 64 + (b3 - 128) ∧
      (b0 - 240) * 262144 + (b1 - 128) * 4096 + (b2 - 128) * 64 + (b3 - 128)
        < 1114112 := by
    rcases hb1 with ⟨e, hb⟩ | ⟨e, hb⟩ | ⟨e1, e2, hb⟩ <;> omega
  refine ⟨by rw [isScalar_iff]; omega, ?_⟩
  unfold utf8EncodeCp
  rw [if_neg (by omega), if_neg (by omega), if_neg (by omega)]
  have hb : 128 ≤ b1 ∧ b1 < 192 := by
    rcases hb1 with ⟨e, hb⟩ | ⟨e, hb⟩ | ⟨e1, e2, hb⟩ <;> omega
  have e1 : 240 + ((b0 - 240) * 262144 + (b1 - 128) * 4096 + (b2 - 128) * 64
      + (b3 - 128)) / 262144 = b0 := by omega
  have e2 : 128 + ((b0 - 240) * 262144 + (b1 - 128) * 4096 + (b2 - 128) * 64
      + (b3 - 128)) / 4096 % 64 = b1 := by omega
  have e3 : 128 + ((b0 - 240) * 262144 + (b1 - 128) * 4096 + (b2 - 128) * 64
      + (b3 - 128)) / 64 % 64 = b2 := by omega
  have e4 : 128 + ((b0 - 240) * 262144 + (b1 - 128) * 4096 + (b2 - 128) * 64
      + (b3 - 128)) % 64 = b3 := by omega
  rw [e1, e2, e3, e4]

/-- Decoding the encoding of any scalar sequence succeeds and recovers
the sequence. -/
theorem utf8Decode?_encode (cs : List Nat) (h : cs.all isScalar = true) :
    utf8Decode? (utf8Encode cs) = some cs := by
  induction cs with
  | nil => rfl
  | cons c cs ih =>
    rw [List.all_cons, Bool.and_eq_true] at h
    have he : utf8Encode (c :: cs) = utf8EncodeCp c ++ utf8Encode cs := by
      simp [utf8Encode]
    rw [he, utf8Decode?_encodeCp c h.1, ih h.2]
    rfl

/-- Soundness of the strict decoder: a successful decode yields scalar
values whose UTF-8 encoding is exactly the input bytes. -/
theorem decodeCore_sound : ∀ (f : Nat) (l : List Nat) (cs : List Nat),
    decodeCore f l = some cs →
    cs.all isScalar = true ∧ utf8Encode cs = l := by
  intro f l
  induction f, l using decodeCore.induct with
  | case1 f =>
    intro cs hcs
    rw [decodeCore_nil] at hcs
    cases hcs
    exact ⟨rfl, rfl⟩
  | case2 b0 rest =>
    intro cs hcs
    rw [decodeCore_zero] at hcs
    exact absurd hcs (by simp)
  | case3 f b0 rest hb0 ih =>
    intro cs hcs
    rw [decodeCore_ascii _ _ _ hb0, Option.map_eq_some'] at hcs
    obtain ⟨cs', hd, rfl⟩ := hcs
    obtain ⟨ha, he⟩ := ih cs' hd
    refine ⟨by simp [ha, isScalar_iff]; omega, ?_⟩
    have h1 : utf8Encode (b0 :: cs') = utf8EncodeCp b0 ++ utf8Encode cs' := by
      simp [utf8Encode]
    rw [h1, he]
    unfold utf8EncodeCp
    rw [if_pos hb0]
    rfl
  | case4 f b0 rest h1 h2 =>
    intro cs hcs
    rw [decodeCore.eq_def] at hcs
    dsimp only at hcs
    rw [if_neg h1, if_pos h2] at hcs
    exact absurd hcs (by simp)
  | case5 f b0 h1 h2 h3 =>
    intro cs hcs
    rw [decodeCore.eq_def] at hcs
    dsimp only at hcs
    rw [if_neg h1, if_neg h2, if_pos h3] at hcs
    exact absurd hcs (by simp)
  | case6 f b0 h1 h2 h3 b1 rest2 hcont ih =>
    intro cs hcs
    rw [decodeCore_two _ _ _ _ (by omega) (by omega) hcont,
      Option.map_eq_some'] at hcs
    obtain ⟨cs', hd, rfl⟩ := hcs
    obtain ⟨ha, he⟩ := ih cs' hd
    rw [isCont_iff] at hcont
    obtain ⟨hsc, henc⟩ :=
      @encodeCp_two b0 b1 (by omega) h3 hcont.1 hcont.2
    refine ⟨by simp [ha, hsc], ?_⟩
    have hsplit : utf8Encode (((b0 - 192) * 64 + (b1 - 128)) :: cs') =
        utf8EncodeCp ((b0 - 192) * 64 + (b1 - 128)) ++ utf8Encode cs' := by
      simp [utf8Encode]
    rw [hsplit, he, henc]
    rfl
  | case7 f b0 h1 h2 h3 b1 rest2 hcont =>
    intro cs hcs
    rw [decodeCore.eq_def] at hcs
    dsimp only at hcs
    rw [if_neg h1, if_neg h2, if_pos h3] at hcs
    rw [if_neg hcont] at hcs
    exact absurd hcs (by simp)
  | case8 f b0 h1 h2 h3 h4 b1 b2 rest3 hval ih =>
    intro cs hcs
    rw [Bool.and_eq_true] at hval
    rw [decodeCore_three _ _ _ _ _ (by omega) h4 hval.1 hval.2,
      Option.map_eq_some'] at hcs
    obtain ⟨cs', hd, rfl⟩ := hcs
    obtain ⟨ha, he⟩ := ih cs' hd
    have hc2 := (isCont_iff b2).mp hval.2
    obtain ⟨hsc, henc⟩ :=
      @encodeCp_three b0 b1 b2 (by omega) h4 hval.1
        hc2.1 hc2.2
    refine ⟨by simp [ha, hsc], ?_⟩
    have hsplit : utf8Encode
        (((b0 - 224) * 4096 + (b1 - 128) * 64 + (b2 - 128)) :: cs') =
        utf8EncodeCp ((b0 - 224) * 4096 + (b1 - 128) * 64 + (b2 - 128))
          ++ utf8Encode cs' := by
      simp [utf8Encode]
    rw [hsplit, he, henc]
    rfl
  | case9 f b0 h1 h2 h3 h4 b1 b2 rest3 hval =>
    intro cs hcs
    rw [decodeCore.eq_def] at hcs
    dsimp only at hcs
    rw [if_neg h1, if_neg h2, if_neg h3, if_pos h4] at hcs
    rw [if_neg hval] at hcs
    exact absurd hcs (by simp)
  | case10 f b0 rest h1 h2 h3 h4 hshape =>
    intro cs hcs
    exfalso
    match rest, hshape with
    | [], _ =>
      rw [decodeCore.eq_def] at hcs
      dsimp only at hcs
      rw [if_neg h1, if_neg h2, if_neg h3, if_pos h4] at hcs
      exact absurd hcs (by simp)
    | [b1], _ =>
      rw [decodeCore.eq_def] at hcs
      dsimp only at hcs
      rw [if_neg h1, if_neg h2, if_neg h3, if_pos h4] at hcs
      exact absurd hcs (by simp)
    | b1 :: b2 :: rest3, hsh => exact hsh b1 b2 rest3 rfl
  | case11 f b0 h1 h2 h3 h4 h5 b1 b2 b3 rest4 hval ih =>
    intro cs hcs
    rw [Bool.and_eq_true, Bool.and_eq_true] at hval
    rw [decodeCore_four _ _ _ _ _ _ (by omega) h5 hval.1.1 hval.1.2 hval.2,
      Option.map_eq_some'] at hcs
    obtain ⟨cs', hd, rfl⟩ := hcs
    obtain ⟨ha, he⟩ := ih cs' hd
    have hc2 := (isCont_iff b2).mp hval.1.2
    have hc3 := (isCont_iff b3).mp hval.2
    obtain ⟨hsc, henc⟩ :=
      @encodeCp_four b0 b1 b2 b3 (by omega)
        h5 hval.1.1 hc2.1 hc2.2 hc3.1 hc3.2
    refine ⟨by simp [ha, hsc], ?_⟩
    have hsplit : utf8Encode (((b0 - 240) * 262144 + (b1 - 128) * 4096
        + (b2 - 128) * 64 + (b3 - 128)) :: cs') =
        utf8EncodeCp ((b0 - 240) * 262144 + (b1 - 128) * 4096
          + (b2 - 128) * 64 + (b3 - 128)) ++ utf8Encode cs' := by
      simp [utf8Encode]
    rw [hsplit, he, henc]
    rfl
  | case12 f b0 h1 h2 h3 h4 h5 b1 b2 b3 rest4 hval =>
    intro cs hcs
    rw [decodeCore.eq_def] at hcs
    dsimp only at hcs
    rw [if_neg h1, if_neg h2, if_neg h3, if_neg h4, if_pos h5] at hcs
    rw [if_neg hval] at hcs
    exact absurd hcs (by simp)
  | case13 f b0 rest h1 h2 h3 h4 h5 hshape =>
    intro cs hcs
    exfalso
    match rest, hshape with
    | [], _ =>
      rw [decodeCore.eq_def] at hcs
      dsimp only at hcs
      rw [if_neg h1, if_neg h2, if_neg h3, if_neg h4, if_pos h5] at hcs
      exact absurd hcs (by simp)
    | [b1], _ =>
      rw [decodeCore.eq_def] at hcs
      dsimp only at hcs
      rw [if_neg h1, if_neg h2, if_neg h3, if_neg h4, if_pos h5] at hcs
      exact absurd hcs (by simp)
    | [b1, b2], _ =>
      rw [decodeCore.eq_def] at hcs
      dsimp only at hcs
      rw [if_neg h1, if_neg h2, if_neg h3, if_neg h4, if_pos h5] at hcs
      exact absurd hcs (by simp)
    | b1 :: b2 :: b3 :: rest4, hsh => exact hsh b1 b2 b3 rest4 rfl
  | case14 f b0 rest h1 h2 h3 h4 h5 =>
    intro cs hcs
    rw [decodeCore.eq_def] at hcs
    dsimp only at hcs
    rw [if_neg h1, if_neg h2, if_neg h3, if_neg h4, if_neg h5] at hcs
    exact absurd hcs (by simp)

/-- C5.  Header parsing fails with the decode error exactly when the raw
header bytes are not valid UTF-8 (not the encoding of any sequence of
scalar values), and on every valid-UTF-8 blob it succeeds — malformed
individual lines are dropped, never reported as errors. -/
theorem spec_C5 : ∀ bytes : List Nat,
    ((∃ e, parseRawHeaders bytes = .error e) ↔
      ¬ ∃ cs, cs.all isScalar = true ∧ utf8Encode cs = bytes) ∧
    ∀ cs, cs.all isScalar = true → utf8Encode cs = bytes →
      ∃ r, parseRawHeaders bytes = .ok r := by
  intro bytes
  constructor
  · constructor
    · rintro ⟨e, he⟩ ⟨cs, hsc, henc⟩
      subst henc
      unfold parseRawHeaders at he
      rw [utf8Decode?_encode cs hsc] at he
      exact absurd he (by simp)
    · intro hnone
      match hdec : utf8Decode? bytes with
      | some cs =>
        exact absurd
          ⟨cs, (decodeCore_sound bytes.length bytes cs hdec).1,
            (decodeCore_sound bytes.length bytes cs hdec).2⟩ hnone
      | none =>
        exact ⟨.decodeError, by unfold parseRawHeaders; rw [hdec]⟩
  · intro cs hsc henc
    subst henc
    exact ⟨parseHeaderText cs,
      by unfold parseRawHeaders; rw [utf8Decode?_encode cs hsc]⟩

/-- C5, witness: a concrete valid-UTF-8 blob with a malformed (colon-free)
line parses successfully. -/
theorem spec_C5_witness :
    ∃ r, parseRawHeaders (utf8Encode (str2cp "A: b\nno colon here")) =
      Except.ok r :=
  (spec_C5 _).2 (str2cp "A: b\nno colon here") (by decide) rfl

/-! ### Claim C4: header-blob parsing -/

/-- One loop iteration appends exactly the header contribution of its
line, leaving earlier headers in place. -/
theorem stepLine_headers (st : ParseState) (l : Str) :
    (stepLine st l).headers = st.headers ++ (lineToHeader l).toList := by
  unfold stepLine lineToHeader
  by_cases hs : isStatusLine l
  · rw [if_pos hs, if_pos hs]
    match splitOnceChar 47 l with
    | some p => simp
    | none => simp
  · rw [if_neg hs, if_neg hs]
    match splitOnceChar 58 l with
    | some p => simp
    | none => simp

/-- The header loop collects, in wire order, exactly the per-line header
contributions. -/
theorem foldl_stepLine_headers (ls : List Str) (st : ParseState) :
    (ls.foldl stepLine st).headers =
      st.headers ++ ls.filterMap lineToHeader := by
  induction ls generalizing st with
  | nil => simp
  | cons l ls ih =>
    rw [List.foldl_cons, ih, stepLine_headers]
    cases hlh : lineToHeader l <;>
      simp [List.filterMap_cons, hlh, List.append_assoc]

/-- Without a status line, the loop never assigns the version or the
status code. -/
theorem foldl_stepLine_status (ls : List Str) (st : ParseState)
    (h : ∀ l ∈ ls, isStatusLine l = false) :
    (ls.foldl stepLine st).http_version = st.http_version ∧
    (ls.foldl stepLine st).response_code = st.response_code := by
  induction ls generalizing st with
  | nil => exact ⟨rfl, rfl⟩
  | cons l ls ih =>
    have hl : isStatusLine l = false := h l (List.mem_cons_self l ls)
    have hls : ∀ l' ∈ ls, isStatusLine l' = false :=
      fun l' hl' => h l' (List.mem_cons_of_mem l hl')
    rw [List.foldl_cons]
    have hstep : (stepLine st l).http_version = st.http_version ∧
        (stepLine st l).response_code = st.response_code := by
      unfold stepLine
      rw [if_neg (by simp [hl])]
      match splitOnceChar 58 l with
      | some p => exact ⟨rfl, rfl⟩
      | none => exact ⟨rfl, rfl⟩
    rw [← hstep.1, ← hstep.2]
    exact ih (stepLine st l) hls

/-- C4.  Header parsing splits the blob into lines, strips `\r` and `\n`,
drops empty lines, reads the status line into version and status code,
collects every colon line as a trimmed key/value pair in wire order,
silently ignores colon-free lines, and parses the example blob to
version `1.1`, status 200 and `[("Content-Type", "application/json")]`. -/
theorem spec_C4 :
    parseHeaderText
        (str2cp "HTTP/1.1 200 OK\r\nContent-Type: application/json\r\n\r\n") =
      ⟨[⟨str2cp "Content-Type", str2cp "application/json"⟩],
        some (str2cp "1.1"), some 200⟩ ∧
    (∀ s, (parseHeaderText s).headers =
      (cleanLines s).filterMap lineToHeader) ∧
    ∀ s, (∀ l ∈ cleanLines s, isStatusLine l = false) →
      (parseHeaderText s).http_version = none ∧
      (parseHeaderText s).response_code = none := by
  refine ⟨by decide, fun s => ?_, fun s h => ?_⟩
  · unfold parseHeaderText
    rw [foldl_stepLine_headers]
    rfl
  · unfold parseHeaderText
    exact foldl_stepLine_status _ _ h

/-- C4, witness: a blob with one header line and one colon-free line has
no status information, and its header list is the one trimmed pair. -/
theorem spec_C4_witness :
    (parseHeaderText (str2cp "Foo: bar\nnocolonline\n")).http_version =
      none ∧
    (parseHeaderText (str2cp "Foo: bar\nnocolonline\n")).response_code =
      none :=
  spec_C4.2.2 _ (by decide)

/-! ### Claim C3: response-body extraction -/

/-- When `findSepIdx` returns an index, the separator occurs there and
nowhere earlier. -/
theorem findSepIdx_some (l : Str) (i : Nat) (h : findSepIdx l = some i) :
    sepCRLF <+: l.drop i ∧ ∀ j < i, ¬ sepCRLF <+: l.drop j := by
  induction l generalizing i with
  | nil => simp [findSepIdx] at h
  | cons c rest ih =>
    unfold findSepIdx at h
    by_cases hp : sepCRLF.isPrefixOf (c :: rest)
    · rw [if_pos hp] at h
      cases h
      exact ⟨List.isPrefixOf_iff_prefix.mp hp, by omega⟩
    · rw [if_neg hp] at h
      match hrest : findSepIdx rest with
      | none => rw [hrest] at h; simp at h
      | some i' =>
        rw [hrest] at h
        simp only [Option.map_some', Option.some.injEq] at h
        obtain ⟨h1, h2⟩ := ih i' hrest
        subst h
        refine ⟨h1, fun j hj => ?_⟩
        match j with
        | 0 =>
          intro hcon
          exact hp (List.isPrefixOf_iff_prefix.mpr hcon)
        | j' + 1 => exact h2 j' (by omega)

/-- When `findSepIdx` returns nothing, the separator occurs nowhere. -/
theorem findSepIdx_none (l : Str) (h : findSepIdx l = none) :
    ∀ j, ¬ sepCRLF <+: l.drop j := by
  induction l with
  | nil =>
    intro j hcon
    simp only [List.drop_nil, List.prefix_nil] at hcon
    exact absurd hcon (by decide)
  | cons c rest ih =>
    unfold findSepIdx at h
    by_cases hp : sepCRLF.isPrefixOf (c :: rest)
    · rw [if_pos hp] at h; simp at h
    · rw [if_neg hp] at h
      simp only [Option.map_eq_none'] at h
      intro j
      match j with
      | 0 =>
        intro hcon
        exact hp (List.isPrefixOf_iff_prefix.mpr hcon)
      | j' + 1 => exact ih h j'

/-- C3.  `utf8_response_body` is `none` exactly on an empty body; on a
non-empty body it lossily decodes the bytes (total, so invalid UTF-8
never fails) and returns the whole decoded text when the `\r\n\r\n`
separator is absent, and exactly the suffix after the first occurrence
of the separator when present. -/
theorem spec_C3 : ∀ s : Stat,
    (utf8_response_body s = none ↔ s.response_body = []) ∧
    ∀ body, utf8_response_body s = some body →
      ((∀ j, ¬ sepCRLF <+: (utf8Lossy s.response_body).drop j) →
        body = utf8Lossy s.response_body) ∧
      ∀ i, sepCRLF <+: (utf8Lossy s.response_body).drop i →
        (∀ j < i, ¬ sepCRLF <+: (utf8Lossy s.response_body).drop j) →
        body = (utf8Lossy s.response_body).drop (i + 4) := by
  intro s
  unfold utf8_response_body
  by_cases hemp : s.response_body = []
  · rw [if_pos hemp]
    exact ⟨by simp [hemp], fun body hcon => by simp at hcon⟩
  · rw [if_neg hemp]
    refine ⟨by simp [hemp], fun body hbody => ?_⟩
    simp only [Option.some.injEq] at hbody
    constructor
    · intro hno
      match hfind : findSepIdx (utf8Lossy s.response_body) with
      | some i =>
        exact absurd (findSepIdx_some _ i hfind).1 (hno i)
      | none =>
        rw [hfind] at hbody
        simpa using hbody.symm
    · intro i hi hbefore
      match hfind : findSepIdx (utf8Lossy s.response_body) with
      | none => exact absurd hi (findSepIdx_none _ hfind i)
      | some i' =>
        obtain ⟨h1, h2⟩ := findSepIdx_some _ i' hfind
        have hii : i = i' := by
          rcases Nat.lt_trichotomy i i' with hlt | heq | hgt
          · exact absurd hi (h2 i hlt)
          · exact heq
          · exact absurd h1 (hbefore i' hgt)
        rw [hfind] at hbody
        subst hii
        simpa using hbody.symm

/-- A `Stat` whose body bytes embed a header block before `\r\n\r\n`. -/
def c3wStat : Stat := { response_body := str2cp "X\r\n\r\nhi" }

/-- C3, witness: the separator of the concrete body sits at index 1, and
the returned body is the suffix after it. -/
theorem spec_C3_witness :
    str2cp "hi" = (utf8Lossy c3wStat.response_body).drop (1 + 4) := by
  have h := (spec_C3 c3wStat).2 (str2cp "hi") (by decide)
  exact h.2 1 (by decide) (by decide)

/-! ### Claim C10: `Header` parse/format round trip -/

/-- `split_once` finds nothing exactly when the character is absent. -/
theorem splitOnceChar_eq_none (c : Nat) (s : Str) :
    splitOnceChar c s = none ↔ ¬ c ∈ s := by
  induction s with
  | nil => simp [splitOnceChar]
  | cons x xs ih =>
    unfold splitOnceChar
    by_cases hx : x = c
    · simp [hx]
    · simp [hx, Option.map_eq_none', ih, Ne.symm hx]

/-- `split_once` splits at the first occurrence: prepending
occurrence-free text shifts the split. -/
theorem splitOnceChar_append (c : Nat) (a b : Str) (h : ¬ c ∈ a) :
    splitOnceChar c (a ++ c :: b) = some (a, b) := by
  induction a with
  | nil => simp [splitOnceChar]
  | cons x xs ih =>
    have hx : ¬ x = c := fun hc => h (hc ▸ List.mem_cons_self x xs)
    have hxs : ¬ c ∈ xs := fun hc => h (List.mem_cons_of_mem x hc)
    simp [splitOnceChar, hx, ih hxs]

/-- A trim-invariant string is unchanged by the leading-whitespace
drop. -/
theorem dropWhile_eq_self_of_trim (v : Str) (h : trim v = v) :
    v.dropWhile isWs = v := by
  refine (List.dropWhile_suffix isWs).eq_of_length ?_
  have h1 : (trim v).length ≤ (v.dropWhile isWs).length := by
    unfold trim
    rw [List.length_reverse]
    exact ((List.dropWhile_suffix isWs).length_le).trans
      (by rw [List.length_reverse])
  have h2 : (v.dropWhile isWs).length ≤ v.length :=
    (List.dropWhile_suffix isWs).length_le
  rw [h] at h1
  omega

/-- A trim-invariant string is unchanged by the trailing-whitespace
drop. -/
theorem dropWhile_reverse_eq_self_of_trim (v : Str) (h : trim v = v) :
    v.reverse.dropWhile isWs = v.reverse := by
  have h1 := dropWhile_eq_self_of_trim v h
  have h2 : trim v = (v.reverse.dropWhile isWs).reverse := by
    unfold trim; rw [h1]
  rw [h] at h2
  have h3 := congrArg List.reverse h2
  rw [List.reverse_reverse] at h3
  exact h3.symm

/-- Trimming a single prepended space recovers a trim-invariant
string. -/
theorem trim_space_cons (v : Str) (h : trim v = v) : trim (32 :: v) = v := by
  unfold trim
  have h32 : isWs 32 = true := by decide
  rw [show (32 :: v).dropWhile isWs = v.dropWhile isWs by
      simp [List.dropWhile, h32]]
  rw [dropWhile_eq_self_of_trim v h, dropWhile_reverse_eq_self_of_trim v h,
    List.reverse_reverse]

/-- C10.  `Header::from_str` fails exactly when the input has no colon,
and for a header whose key is colon-free and whose key and value are
trim-invariant, parsing the `Display` rendering `"key: value"` recovers
the header. -/
theorem spec_C10 : (∀ s : Str, headerFromStr s = none ↔ ¬ 58 ∈ s) ∧
    ∀ h : Header, ¬ 58 ∈ h.key → trim h.key = h.key →
      trim h.value = h.value → headerFromStr (headerDisplay h) = some h := by
  constructor
  · intro s
    unfold headerFromStr
    rw [Option.map_eq_none']
    exact splitOnceChar_eq_none 58 s
  · intro h hk htk htv
    unfold headerFromStr headerDisplay
    have e : h.key ++ str2cp ": " ++ h.value = h.key ++ 58 :: 32 :: h.value := by
      rw [List.append_assoc]; rfl
    rw [e, splitOnceChar_append 58 h.key (32 :: h.value) hk]
    simp only [Option.map_some']
    rw [htk, trim_space_cons h.value htv]

/-- C10, witness: a concrete round trip through `Display` and
`from_str`. -/
theorem spec_C10_witness :
    headerFromStr (headerDisplay
      ⟨str2cp "Content-Type", str2cp "application/json"⟩) =
    some ⟨str2cp "Content-Type", str2cp "application/json"⟩ :=
  spec_C10.2 _ (by decide) (by decide) (by decide)

